import Mathlib

/-!
Verification of the literature-digest pipeline (daily and frontier variants).

This file gives a shallow embedding of the selection, scoring and
deduplication logic of the repository:

* `src/utils/query_builder.py`   — `build_pubmed_query`
* `src/utils/altmetric_headless.py` — `get_altmetric_by_doi`, `enrich_papers_with_altmetric`
* `src/utils/gemini_headless.py` — `batch_triage_papers` (blacklist filter,
  score initialisation, batching, per-batch score application, whitelist boost)
* `src/daily_digest.py`          — `calculate_combined_score`
* `src/frontier_digest.py`       — `calculate_combined_score`,
  `calculate_frontier_combined_score`, `is_itp_paper`, the DOI/PMID
  deduplication loop and the ITP-first selection step of `run_frontier_digest`
* `src/utils/notion_logger.py`   — the combined-score expression of `log_paper`

Python dictionaries with optional keys are modelled as a structure with
`Option`-valued fields; `d.get(k, default)` becomes `Option.getD`.  External
calls (the Gemini scoring endpoint, the Altmetric HTTP lookup) are modelled as
oracle functions passed in as parameters; a `none`/`failure` outcome stands for
a thrown exception or unparsable response.  Floating-point arithmetic in
`calculate_frontier_combined_score` is modelled over `ℚ`; at the integer score
magnitudes involved, Python's binary floats represent every intermediate value
exactly, so the rational model is exact.
-/

/-! ## String utilities

Python's substring operator `needle in hay` and `str.join` are modelled here.
-/

/-- Boolean substring test on lists: `listContains hay needle` is `true` iff
`needle` occurs contiguously inside `hay` (Python's `needle in hay`). -/
def listContains {α : Type} [DecidableEq α] : List α → List α → Bool
  | [], needle => needle.isEmpty
  | h :: t, needle => needle.isPrefixOf (h :: t) || listContains t needle

/-- Substring test on strings, via the underlying character lists. -/
def strContains (hay needle : String) : Bool :=
  listContains hay.data needle.data

theorem listContains_iff_infix {α : Type} [DecidableEq α] (hay needle : List α) :
    listContains hay needle = true ↔ needle <:+: hay := by
  induction hay with
  | nil => simp [listContains, List.isEmpty_iff]
  | cons h t ih =>
    simp [listContains, List.infix_cons_iff, ih, List.isPrefixOf_iff_prefix]

theorem strContains_iff (hay needle : String) :
    strContains hay needle = true ↔ needle.data <:+: hay.data :=
  listContains_iff_infix hay.data needle.data

/-- Python's `str.lower()`, modelled as a character-wise map.  All strings the
pipeline compares (author names, the fixed ITP phrases) are ASCII, where
`Char.toLower` agrees with Python's lowercasing. -/
def pyLower (s : String) : String :=
  ⟨s.data.map Char.toLower⟩

/-- `"sep".join(l)` from Python. -/
def joinSep (sep : String) : List String → String
  | [] => ""
  | [x] => x
  | x :: y :: t => x ++ sep ++ joinSep sep (y :: t)

/-! ## Data model

A `Paper` is the dict flowing through the pipeline.  Fields that the fetchers
populate are plain strings (missing and empty agree for every use site); fields
assigned later in the pipeline are `Option`-valued so that the dict-key-absent
case is distinguishable from any assigned value.
-/

/-- Result of an Altmetric lookup (`altmetric_headless.get_altmetric_by_doi`). -/
structure AltmetricResult where
  score : Int
  twitter : Int
  news : Int
  deriving DecidableEq, Repr

/-- A candidate paper record. -/
structure Paper where
  title : String := ""
  abstract : String := ""
  authors : String := ""
  journal : String := ""
  pmid : String := ""
  doi : String := ""
  url : String := ""
  date : String := ""
  altmetric : Option AltmetricResult := none
  triage_score : Option Int := none
  evidence_score : Option Int := none
  actionability_score : Option Int := none
  frontier_score : Option Int := none
  whitelisted : Option Bool := none
  combined_score : Option Int := none
  frontier_combined_score : Option Int := none
  is_itp : Option Bool := none
  deriving DecidableEq, Repr

/-! ## Query builder (`src/utils/query_builder.py`) -/

namespace QueryBuilder

/-- A topic row from configuration. -/
structure Topic where
  name : String := ""
  query_fragment : String := ""
  deriving DecidableEq, Repr

/-- The base aging/longevity filter, exactly as in the source. -/
def BASE_AGING_FILTER : String :=
  "(aging[MeSH] OR \"healthy aging\"[tiab] OR longevity[tiab] OR healthspan[tiab] OR \"biological age\"[tiab] OR lifespan[tiab])"

/-- The `topic_fragments` local of `build_pubmed_query` (line 44): the
non-empty fragments of the selected topics. -/
def topicFragments (topics : List Topic) : List String :=
  (topics.filter (fun t => t.query_fragment ≠ "")).map (fun t => t.query_fragment)

/-- The `topics_query` local of `build_pubmed_query` (line 50). -/
def topicsQuery (topics : List Topic) : String :=
  joinSep " OR " ((topicFragments topics).map (fun frag => "(" ++ frag ++ ")"))

/-- The `main_query` local of `build_pubmed_query` (lines 53-56). -/
def mainQuery (topics : List Topic) (include_base_filter : Bool) : String :=
  if include_base_filter then BASE_AGING_FILTER ++ " AND (" ++ topicsQuery topics ++ ")"
  else "(" ++ topicsQuery topics ++ ")"

/-- The `exclusion_clauses` string of `build_pubmed_query` (line 60). -/
def exclusionClauses (exclusions : List String) : String :=
  joinSep " " ((exclusions.filter (fun t => t ≠ "")).map (fun t => "NOT " ++ t ++ "[tiab]"))

/-- `build_pubmed_query` from `query_builder.py` (lines 17-63), with the
source's local variables lifted into the named helper definitions above. -/
def build_pubmed_query (topics : List Topic) (exclusions : List String)
    (include_base_filter : Bool := true) : String :=
  if topics = [] then (if include_base_filter then BASE_AGING_FILTER else "")
  else if topicFragments topics = [] then
    (if include_base_filter then BASE_AGING_FILTER else "")
  else if exclusions ≠ [] then
    mainQuery topics include_base_filter ++ " " ++ exclusionClauses exclusions
  else mainQuery topics include_base_filter

end QueryBuilder

/-! ## Attention enrichment (`src/utils/altmetric_headless.py`) -/

namespace Altmetric

/-- The JSON body of a successful Altmetric response; every key is optional
(the source reads each with `data.get(key, 0)`). -/
structure AltBody where
  score : Option Int := none
  cited_by_tweeters_count : Option Int := none
  cited_by_msm_count : Option Int := none
  deriving DecidableEq, Repr

/-- Outcome of the HTTP lookup: `failure` models a raised exception
(network error, bad JSON), `response` a reply with a status code. -/
inductive NetOutcome where
  | failure
  | response (status : Nat) (body : AltBody)
  deriving DecidableEq, Repr

/-- The zero-valued default record of `get_altmetric_by_doi`. -/
def default_altmetric : AltmetricResult := ⟨0, 0, 0⟩

/-- `get_altmetric_by_doi` (lines 11-41).  The DOI is a string; `""` models a
missing or empty DOI (`if not doi`).  `net` is the external HTTP boundary. -/
def get_altmetric_by_doi (doi : String) (net : String → NetOutcome) : AltmetricResult :=
  if doi = "" then default_altmetric
  else
    match net doi with
    | .failure => default_altmetric
    | .response status body =>
      if status = 200 then
        ⟨body.score.getD 0, body.cited_by_tweeters_count.getD 0, body.cited_by_msm_count.getD 0⟩
      else default_altmetric

/-- `enrich_papers_with_altmetric` (lines 44-63). -/
def enrich_papers_with_altmetric (papers : List Paper) (net : String → NetOutcome) :
    List Paper :=
  papers.map (fun p => { p with altmetric := some (get_altmetric_by_doi p.doi net) })

end Altmetric

/-! ## Scoring engine (`src/utils/gemini_headless.py`) -/

namespace Gemini

/-- `_author_in_list` (lines 109-114). -/
def author_in_list (authors_str : String) (author_list : List String) : Bool :=
  if authors_str = "" ∨ author_list = [] then false
  else author_list.any (fun author => strContains (pyLower authors_str) (pyLower author))

/-- One object of the JSON array returned by the scoring call.  Every key is
optional (the source reads them with `score_obj.get(key, -1)`); `frontier`
models any additional key the response may carry — no line of the source
reads it. -/
structure ScoreObj where
  index : Option Int := none
  relevance : Option Int := none
  evidence : Option Int := none
  actionability : Option Int := none
  frontier : Option Int := none
  deriving DecidableEq, Repr

/-- Score initialisation (lines 154-158): sentinel `-1` on the three core
dimensions, whitelist flag from the author substring test. -/
def initPaper (whitelist : List String) (p : Paper) : Paper :=
  { p with triage_score := some (-1), evidence_score := some (-1),
           actionability_score := some (-1),
           whitelisted := some (author_in_list p.authors whitelist) }

/-- Application of one score object to the paper at its index
(lines 210-212): the three core dimensions are assigned, nothing else. -/
def applyObj (p : Paper) (o : ScoreObj) : Paper :=
  { p with triage_score := some (o.relevance.getD (-1)),
           evidence_score := some (o.evidence.getD (-1)),
           actionability_score := some (o.actionability.getD (-1)) }

/-- Replace the paper at position `i` of the batch by its scored version. -/
def setScores : List Paper → Nat → ScoreObj → List Paper
  | [], _, _ => []
  | p :: rest, 0, o => applyObj p o :: rest
  | p :: rest, Nat.succ n, o => p :: setScores rest n o

/-- The `for score_obj in scores` loop (lines 207-212): objects whose index
lies outside the batch are ignored. -/
def applyBatch (batch : List Paper) (objs : List ScoreObj) : List Paper :=
  objs.foldl (fun b o =>
    let idx := o.index.getD (-1)
    if 0 ≤ idx ∧ idx < (b.length : Int) then setScores b idx.toNat o else b) batch

/-- Fuel-indexed chunking helper; the fuel is always at least the list length
at every call site, so the middle case is unreachable. -/
def chunksAux {α : Type} (size : Nat) : Nat → List α → List (List α)
  | _, [] => []
  | 0, l => [l]
  | Nat.succ fuel, x :: xs => (x :: xs.take (size - 1)) :: chunksAux size fuel (xs.drop (size - 1))

/-- Partition into consecutive batches of `size` papers, last batch possibly
smaller (lines 161-166). -/
def chunks {α : Type} (size : Nat) (l : List α) : List (List α) :=
  chunksAux size l.length l

/-- The per-batch loop (lines 163-216): `oracle i` is the outcome of the
scoring call for batch `i` — `none` models a request failure or a JSON parse
failure, in which case the batch is left untouched. -/
def scoreBatches (oracle : Nat → Option (List ScoreObj)) :
    Nat → List (List Paper) → List (List Paper)
  | _, [] => []
  | i, b :: rest =>
    (match oracle i with
     | none => b
     | some objs => applyBatch b objs) :: scoreBatches oracle (i + 1) rest

/-- The `_usage_stats["errors"]` increments of the run (line 215): one per
failed batch. -/
def countFailures (oracle : Nat → Option (List ScoreObj)) :
    Nat → List (List Paper) → Nat
  | _, [] => 0
  | i, _ :: rest => (if (oracle i).isNone then 1 else 0) + countFailures oracle (i + 1) rest

/-- The whitelist boost applied to one paper (lines 219-221). -/
def boostOne (p : Paper) : Paper :=
  if p.whitelisted.getD false = true ∧ 0 ≤ p.triage_score.getD (-1) then
    { p with triage_score := some (min 10 (p.triage_score.getD (-1) + 2)) }
  else p

/-- The final whitelist-boost pass (lines 218-221). -/
def applyWhitelistBoost (papers : List Paper) : List Paper := papers.map boostOne

/-- The blacklist filter (lines 143-151).  The source skips the filter when
the blacklist is empty; `author_in_list _ [] = false`, so filtering is then
the identity and the unconditional filter is behaviourally identical. -/
def keptPapers (blacklist : List String) (papers : List Paper) : List Paper :=
  papers.filter (fun p => !author_in_list p.authors blacklist)

/-- The list of batches the scoring loop iterates over (lines 161-166):
blacklist filter, then score initialisation, then chunking. -/
def batches (papers : List Paper) (batch_size : Nat) (whitelist blacklist : List String) :
    List (List Paper) :=
  chunks batch_size ((keptPapers blacklist papers).map (initPaper whitelist))

/-- The state of the paper list after the scoring loop, before the whitelist
boost. -/
def scoredPapers (papers : List Paper) (batch_size : Nat) (whitelist blacklist : List String)
    (oracle : Nat → Option (List ScoreObj)) : List Paper :=
  (scoreBatches oracle 0 (batches papers batch_size whitelist blacklist)).flatten

/-- `batch_triage_papers` (lines 117-223), returning the papers together with
the number of failed batches recorded in the error counter. -/
def batch_triage_papers (papers : List Paper) (batch_size : Nat)
    (whitelist blacklist : List String) (oracle : Nat → Option (List ScoreObj)) :
    List Paper × Nat :=
  (applyWhitelistBoost (scoredPapers papers batch_size whitelist blacklist oracle),
   countFailures oracle 0 (batches papers batch_size whitelist blacklist))

end Gemini

/-! ## Daily digest (`src/daily_digest.py`) -/

namespace DailyDigest

/-- `calculate_combined_score` (daily_digest.py lines 44-53). -/
def calculate_combined_score (paper : Paper) : Int :=
  let rel := paper.triage_score.getD (-1)
  let evid := paper.evidence_score.getD (-1)
  let action := paper.actionability_score.getD (-1)
  if rel < 0 ∨ evid < 0 ∨ action < 0 then 0
  else rel + evid + action

end DailyDigest

/-! ## Notion log writer (`src/utils/notion_logger.py`) -/

namespace NotionLogger

/-- The `combined_score` value computed inside `log_paper`
(notion_logger.py line 59): note that only `relevance >= 0` is checked. -/
def combined_score (paper : Paper) : Int :=
  let relevance := paper.triage_score.getD (-1)
  let evidence := paper.evidence_score.getD (-1)
  let actionability := paper.actionability_score.getD (-1)
  if 0 ≤ relevance then relevance + evidence + actionability else 0

end NotionLogger

/-! ## Frontier digest (`src/frontier_digest.py`) -/

namespace FrontierDigest

def TOP_N_PAPERS : Nat := 7
def MIN_COMBINED_SCORE : Int := 12
def MIN_FRONTIER_SCORE : Int := 6
def ITP_AUTHOR_NAMES : List String := ["Miller RA", "Strong R", "Harrison DE", "Nadon NL"]

/-- `calculate_combined_score` (frontier_digest.py lines 48-57, textually the
same function as the daily one). -/
def calculate_combined_score (paper : Paper) : Int :=
  let rel := paper.triage_score.getD (-1)
  let evid := paper.evidence_score.getD (-1)
  let action := paper.actionability_score.getD (-1)
  if rel < 0 ∨ evid < 0 ∨ action < 0 then 0
  else rel + evid + action

/-- Python's `int(...)` on a rational value: truncation toward zero. -/
def pyTrunc (q : ℚ) : Int :=
  if 0 ≤ q then ⌊q⌋ else ⌈q⌉

/-- `calculate_frontier_combined_score` (lines 60-77).  The source computes
`int(rel + evid*0.5 + action*0.5 + frontier*1.5)` in floating point; at
integer inputs every intermediate value is a multiple of 1/2, represented
exactly by binary floats at these magnitudes, so the exact value is
`(2*rel + evid + action + 3*frontier) / 2`, and Python's `int()` truncates it
toward zero — `Int.tdiv` by 2.  `frontier_trunc_spec` below proves this
encoding equal to the literal rational formula with truncation. -/
def calculate_frontier_combined_score (paper : Paper) : Int :=
  let rel := paper.triage_score.getD 0
  let evid := paper.evidence_score.getD 0
  let action := paper.actionability_score.getD 0
  let frontier := paper.frontier_score.getD 0
  if rel < 0 then 0
  else (2 * rel + evid + action + 3 * frontier).tdiv 2

/-- The frontier ranking formula as the spec words it: `relevance +
0.5*evidence + 0.5*actionability + 1.5*frontierScore`, truncated toward zero
to an integer, and exactly 0 when relevance is negative.  Written over `ℚ`
for comparison with the integer-level source embedding. -/
def specFrontierCombined (rel evid action frontier : Int) : Int :=
  if rel < 0 then 0
  else pyTrunc ((rel : ℚ) + (evid : ℚ) * (1/2) + (action : ℚ) * (1/2) + (frontier : ℚ) * (3/2))

/-- `is_itp_paper` (lines 80-96). -/
def is_itp_paper (paper : Paper) : Bool :=
  let title := pyLower paper.title
  let abstract := pyLower paper.abstract
  let authors := paper.authors
  (["interventions testing program", "itp", "nia itp"].any
      (fun term => strContains title term || strContains abstract term))
  || ITP_AUTHOR_NAMES.any (fun author => strContains (pyLower authors) (pyLower author))

/-- The deduplication loop of `run_frontier_digest` (lines 168-188), with the
two seen-sets made explicit. -/
def dedupAux : List String → List String → List Paper → List Paper
  | _, _, [] => []
  | seenDois, seenPmids, paper :: rest =>
    if (paper.doi ≠ "" ∧ paper.doi ∈ seenDois) ∨ (paper.pmid ≠ "" ∧ paper.pmid ∈ seenPmids) then
      dedupAux seenDois seenPmids rest
    else
      paper :: dedupAux (if paper.doi ≠ "" then paper.doi :: seenDois else seenDois)
                        (if paper.pmid ≠ "" then paper.pmid :: seenPmids else seenPmids) rest

/-- Deduplication of the combined paper list (lines 164-189). -/
def dedup_papers (all_papers : List Paper) : List Paper :=
  dedupAux [] [] all_papers

/-- Score assignment of the selection step (lines 235-238). -/
def scorePaper (p : Paper) : Paper :=
  { p with combined_score := some (calculate_combined_score p),
           frontier_combined_score := some (calculate_frontier_combined_score p),
           is_itp := some (is_itp_paper p) }

/-- The `for paper in papers` scoring loop of the selection step. -/
def scoreStep (papers : List Paper) : List Paper := papers.map scorePaper

/-- The always-include branch (line 241). -/
def itpPapers (papers : List Paper) : List Paper :=
  (scoreStep papers).filter (fun p => p.is_itp.getD false)

/-- The score-filtered branch (lines 244-249). -/
def otherPapers (papers : List Paper) : List Paper :=
  (scoreStep papers).filter (fun p =>
    !(p.is_itp.getD false)
    && decide (MIN_COMBINED_SCORE ≤ p.frontier_combined_score.getD 0)
    && decide (MIN_FRONTIER_SCORE ≤ p.frontier_score.getD 0))

/-- Stable descending insertion by `frontier_combined_score`: the element goes
in front of the first entry with a key `≤` its own, so that elements with
equal keys keep their original relative order. -/
def insertDesc (p : Paper) : List Paper → List Paper
  | [] => [p]
  | q :: rest =>
    if q.frontier_combined_score.getD 0 ≤ p.frontier_combined_score.getD 0 then p :: q :: rest
    else q :: insertDesc p rest

/-- The stable descending sort of the score-filtered branch (line 252).
Python's `list.sort(key=..., reverse=True)` is a stable descending sort, and a
stable sort's output is uniquely determined by the comparison, so stable
insertion sort is an exact model. -/
def sortedOtherPapers (papers : List Paper) : List Paper :=
  (otherPapers papers).foldr insertDesc []

/-- The selection step of `run_frontier_digest` (lines 234-256): ITP papers
first, then the sorted score-filtered papers, truncated to `TOP_N_PAPERS`. -/
def frontier_select (papers : List Paper) : List Paper :=
  (itpPapers papers ++ sortedOtherPapers papers).take TOP_N_PAPERS

end FrontierDigest

/-! ## Helper lemmas -/

theorem pyTrunc_intCast_div_two (n : Int) :
    FrontierDigest.pyTrunc ((n : ℚ) / 2) = n.tdiv 2 := by
  unfold FrontierDigest.pyTrunc
  rcases le_or_lt 0 n with h | h
  · rw [if_pos (by positivity)]
    have h2 : ((2 : ℚ)) = ((2 : ℕ) : ℚ) := by norm_num
    rw [h2, Rat.floor_intCast_div_natCast]
    exact (Int.tdiv_eq_ediv h (by norm_num)).symm
  · have hneg : (n : ℚ) / 2 < 0 := by
      apply div_neg_of_neg_of_pos _ (by norm_num)
      exact_mod_cast h
    rw [if_neg (not_le.mpr hneg)]
    have hrw : (n : ℚ) / 2 = -(((-n : Int) : ℚ) / 2) := by push_cast; ring
    rw [hrw, Int.ceil_neg]
    have h2 : ((2 : ℚ)) = ((2 : ℕ) : ℚ) := by norm_num
    rw [h2, Rat.floor_intCast_div_natCast]
    have ht : (-n).tdiv 2 = -n / 2 := Int.tdiv_eq_ediv (by omega) (by norm_num)
    have hn : n.tdiv 2 = -((-n).tdiv 2) := by
      rw [Int.neg_tdiv]; ring
    rw [hn, ht]
    norm_num

/-! ## Claim C1 -/

/-- **C1** (amended).  At the daily and frontier selectors, the combined score
equals `relevance + evidence + actionability` when all three dimensions are
`≥ 0`, is exactly 0 when any dimension is negative, and is never negative.
The Notion log writer checks only `relevance >= 0`: its combined value equals
`relevance + evidence + actionability` whenever `relevance ≥ 0` — including
when `evidence` or `actionability` is the sentinel −1, so it can differ from
the selectors' value and can even be negative — and is 0 when `relevance` is
negative. -/
theorem combined_score_spec (p : Paper) :
    DailyDigest.calculate_combined_score p = FrontierDigest.calculate_combined_score p
    ∧ (0 ≤ p.triage_score.getD (-1) → 0 ≤ p.evidence_score.getD (-1) →
        0 ≤ p.actionability_score.getD (-1) →
        DailyDigest.calculate_combined_score p =
          p.triage_score.getD (-1) + p.evidence_score.getD (-1) + p.actionability_score.getD (-1)
        ∧ NotionLogger.combined_score p =
          p.triage_score.getD (-1) + p.evidence_score.getD (-1) + p.actionability_score.getD (-1))
    ∧ ((p.triage_score.getD (-1) < 0 ∨ p.evidence_score.getD (-1) < 0 ∨
        p.actionability_score.getD (-1) < 0) → DailyDigest.calculate_combined_score p = 0)
    ∧ 0 ≤ DailyDigest.calculate_combined_score p
    ∧ (p.triage_score.getD (-1) < 0 → NotionLogger.combined_score p = 0)
    ∧ (0 ≤ p.triage_score.getD (-1) → NotionLogger.combined_score p =
        p.triage_score.getD (-1) + p.evidence_score.getD (-1) + p.actionability_score.getD (-1)) := by
  refine ⟨?_, fun h1 h2 h3 => ⟨?_, ?_⟩, fun h => ?_, ?_, fun h => ?_, fun h => ?_⟩ <;>
    simp only [DailyDigest.calculate_combined_score, FrontierDigest.calculate_combined_score,
      NotionLogger.combined_score] <;>
    split_ifs <;> omega

/-- Witness for C1 at a fully scored paper. -/
theorem combined_score_spec_witness :
    DailyDigest.calculate_combined_score
      { triage_score := some 3, evidence_score := some 4, actionability_score := some 5 } = 12
    ∧ NotionLogger.combined_score
      { triage_score := some 3, evidence_score := some 4, actionability_score := some 5 } = 12 := by
  have h := (combined_score_spec
    { triage_score := some 3, evidence_score := some 4, actionability_score := some 5 }).2.1
    (by decide) (by decide) (by decide)
  exact ⟨h.1.trans (by decide), h.2.trans (by decide)⟩

/-- **C1** counterexample: at `relevance = 0`, `evidence = actionability = −1`
(a partially scored document) the Notion log writer computes −2, which is
neither 0 nor non-negative, contradicting the claim at that pipeline site. -/
theorem notion_combined_score_counterexample :
    NotionLogger.combined_score
      { triage_score := some 0, evidence_score := some (-1), actionability_score := some (-1) } = -2
    ∧ NotionLogger.combined_score
      { triage_score := some 0, evidence_score := some (-1), actionability_score := some (-1) } < 0 := by
  decide

/-! ## Claim C3 -/

/-- **C3.**  The frontier ranking key equals `relevance + 0.5*evidence +
0.5*actionability + 1.5*frontierScore` truncated toward zero to an integer
(`specFrontierCombined` is that formula verbatim over `ℚ`), any document with
`relevance < 0` gets exactly 0, and the spec's scenario
(6, 5, 5, 8) yields 23. -/
theorem frontier_combined_formula_spec (p : Paper) :
    FrontierDigest.calculate_frontier_combined_score p =
      FrontierDigest.specFrontierCombined (p.triage_score.getD 0) (p.evidence_score.getD 0)
        (p.actionability_score.getD 0) (p.frontier_score.getD 0)
    ∧ (p.triage_score.getD 0 < 0 → FrontierDigest.calculate_frontier_combined_score p = 0)
    ∧ FrontierDigest.calculate_frontier_combined_score
        { triage_score := some 6, evidence_score := some 5, actionability_score := some 5,
          frontier_score := some 8 } = 23 := by
  have key : ∀ rel evid action frontier : Int,
      FrontierDigest.specFrontierCombined rel evid action frontier =
        (if rel < 0 then 0 else (2 * rel + evid + action + 3 * frontier).tdiv 2) := by
    intro rel evid action frontier
    unfold FrontierDigest.specFrontierCombined
    split
    · rfl
    · have hcast : (rel : ℚ) + (evid : ℚ) * (1/2) + (action : ℚ) * (1/2) + (frontier : ℚ) * (3/2)
          = ((2 * rel + evid + action + 3 * frontier : Int) : ℚ) / 2 := by push_cast; ring
      rw [hcast, pyTrunc_intCast_div_two]
  refine ⟨?_, fun h => ?_, by decide⟩
  · rw [key]
    simp only [FrontierDigest.calculate_frontier_combined_score]
  · simp only [FrontierDigest.calculate_frontier_combined_score, if_pos h]

/-- Witness for C3 at an unscored paper (`relevance = −1`). -/
theorem frontier_combined_formula_witness :
    FrontierDigest.calculate_frontier_combined_score
      { triage_score := some (-1), evidence_score := some 9, actionability_score := some 9,
        frontier_score := some 9 } = 0
    ∧ FrontierDigest.calculate_frontier_combined_score
        { triage_score := some 6, evidence_score := some 5, actionability_score := some 5,
          frontier_score := some 8 } = 23 := by
  have h := frontier_combined_formula_spec
    { triage_score := some (-1), evidence_score := some 9, actionability_score := some 9,
      frontier_score := some 9 }
  exact ⟨h.2.1 (by decide), h.2.2⟩

/-! ## Claim C9 -/

/-- **C9.**  Attention enrichment is total and never raises: an empty DOI
yields the zero record without consulting the network oracle (the result is
the same for every oracle), a failed lookup or a non-200 response yields the
same zero record, and enrichment assigns an attention record to every paper
while preserving the list length. -/
theorem altmetric_default_spec (doi : String) (net : String → Altmetric.NetOutcome)
    (papers : List Paper) :
    (doi = "" → Altmetric.get_altmetric_by_doi doi net = Altmetric.default_altmetric
      ∧ ∀ net2, Altmetric.get_altmetric_by_doi doi net2 = Altmetric.get_altmetric_by_doi doi net)
    ∧ (net doi = Altmetric.NetOutcome.failure →
        Altmetric.get_altmetric_by_doi doi net = Altmetric.default_altmetric)
    ∧ (∀ s b, net doi = Altmetric.NetOutcome.response s b → s ≠ 200 →
        Altmetric.get_altmetric_by_doi doi net = Altmetric.default_altmetric)
    ∧ (Altmetric.enrich_papers_with_altmetric papers net).length = papers.length
    ∧ ∀ q ∈ Altmetric.enrich_papers_with_altmetric papers net,
        q.altmetric = some (Altmetric.get_altmetric_by_doi q.doi net) := by
  refine ⟨fun h => ⟨?_, fun net2 => ?_⟩, fun h => ?_, fun s b h hs => ?_, ?_, ?_⟩
  · simp [Altmetric.get_altmetric_by_doi, h]
  · simp [Altmetric.get_altmetric_by_doi, h]
  · rcases eq_or_ne doi "" with hd | hd
    · simp [Altmetric.get_altmetric_by_doi, hd]
    · simp [Altmetric.get_altmetric_by_doi, hd, h]
  · rcases eq_or_ne doi "" with hd | hd
    · simp [Altmetric.get_altmetric_by_doi, hd]
    · simp [Altmetric.get_altmetric_by_doi, hd, h, hs]
  · simp [Altmetric.enrich_papers_with_altmetric]
  · intro q hq
    simp only [Altmetric.enrich_papers_with_altmetric, List.mem_map] at hq
    obtain ⟨p, hp, rfl⟩ := hq
    rfl

/-- Witness for C9: empty DOI and a failing oracle. -/
theorem altmetric_default_spec_witness :
    Altmetric.get_altmetric_by_doi "" (fun _ => Altmetric.NetOutcome.failure) =
      Altmetric.default_altmetric
    ∧ Altmetric.get_altmetric_by_doi "10.1/x" (fun _ => Altmetric.NetOutcome.failure) =
      Altmetric.default_altmetric
    ∧ Altmetric.get_altmetric_by_doi "10.1/x" (fun _ => Altmetric.NetOutcome.response 404 {}) =
      Altmetric.default_altmetric
    ∧ (Altmetric.enrich_papers_with_altmetric [{ doi := "10.1/x" }]
        (fun _ => Altmetric.NetOutcome.failure)).length = 1 := by
  have h1 := altmetric_default_spec "" (fun _ => Altmetric.NetOutcome.failure) []
  have h2 := altmetric_default_spec "10.1/x" (fun _ => Altmetric.NetOutcome.failure)
    [{ doi := "10.1/x" }]
  have h3 := altmetric_default_spec "10.1/x" (fun _ => Altmetric.NetOutcome.response 404 {}) []
  exact ⟨(h1.1 rfl).1, h2.2.1 rfl, h3.2.2.1 404 {} rfl (by decide), h2.2.2.2.1⟩

/-! ## Claim C8 -/

theorem strContains_self (s : String) : strContains s s = true :=
  (strContains_iff s s).mpr (List.infix_refl _)

theorem strContains_trans {a b c : String} (h1 : strContains a b = true)
    (h2 : strContains b c = true) : strContains a c = true :=
  (strContains_iff a c).mpr (((strContains_iff b c).mp h2).trans ((strContains_iff a b).mp h1))

theorem strContains_append_left (a b n : String) (h : strContains a n = true) :
    strContains (a ++ b) n = true := by
  rw [strContains_iff] at h ⊢
  rw [String.data_append]
  exact h.trans (List.prefix_append a.data b.data).isInfix

theorem strContains_append_right (a b n : String) (h : strContains b n = true) :
    strContains (a ++ b) n = true := by
  rw [strContains_iff] at h ⊢
  rw [String.data_append]
  exact h.trans (List.suffix_append a.data b.data).isInfix

theorem strContains_wrap (pre f post : String) : strContains (pre ++ f ++ post) f = true :=
  strContains_append_left _ _ _ (strContains_append_right _ _ _ (strContains_self f))

theorem strContains_joinSep (sep : String) (l : List String) (x : String) (hx : x ∈ l) :
    strContains (joinSep sep l) x = true := by
  induction l with
  | nil => cases hx
  | cons y t ih =>
    cases t with
    | nil =>
      have hxy : x = y := by simpa using hx
      subst hxy
      exact strContains_self x
    | cons z t2 =>
      rcases List.mem_cons.mp hx with rfl | hmem
      · exact strContains_append_left _ _ _ (strContains_append_left _ _ _ (strContains_self x))
      · exact strContains_append_right (y ++ sep) _ _ (ih hmem)

/-- **C8** counterexample.  With empty topics the builder returns exactly the
base filter and drops every exclusion clause, and an empty exclusion term
produces no NOT clause at all — both contradict "the output contains one NOT
clause per exclusion term" read over all inputs. -/
theorem build_query_exclusion_counterexample :
    QueryBuilder.build_pubmed_query [] ["pediatric"] true = QueryBuilder.BASE_AGING_FILTER
    ∧ strContains (QueryBuilder.build_pubmed_query [] ["pediatric"] true)
        "NOT pediatric[tiab]" = false
    ∧ strContains
        (QueryBuilder.build_pubmed_query
          [{ name := "CVD", query_fragment := "cardiovascular[tiab]" }] [""] true)
        "NOT" = false := by
  decide

/-- **C8** (amended).  When `topics` is empty or every fragment is empty the
builder returns exactly the base aging filter (or `""` without the base
filter), exclusions included; otherwise the output contains every non-empty
topic fragment and one `NOT ...[tiab]` clause per non-empty exclusion term. -/
theorem build_pubmed_query_spec (topics : List QueryBuilder.Topic) (exclusions : List String)
    (ibf : Bool) :
    ((topics = [] ∨ ∀ t ∈ topics, t.query_fragment = "") →
      QueryBuilder.build_pubmed_query topics exclusions ibf =
        (if ibf then QueryBuilder.BASE_AGING_FILTER else ""))
    ∧ ((∃ t ∈ topics, t.query_fragment ≠ "") →
        (∀ t ∈ topics, t.query_fragment ≠ "" →
          strContains (QueryBuilder.build_pubmed_query topics exclusions ibf)
            t.query_fragment = true)
        ∧ (∀ term ∈ exclusions, term ≠ "" →
          strContains (QueryBuilder.build_pubmed_query topics exclusions ibf)
            ("NOT " ++ term ++ "[tiab]") = true)) := by
  constructor
  · rintro (rfl | hall)
    · simp [QueryBuilder.build_pubmed_query]
    · by_cases htop : topics = []
      · simp [QueryBuilder.build_pubmed_query, htop]
      · have hfil : QueryBuilder.topicFragments topics = [] := by
          unfold QueryBuilder.topicFragments
          rw [List.map_eq_nil_iff, List.filter_eq_nil_iff]
          intro t ht
          simpa using hall t ht
        simp [QueryBuilder.build_pubmed_query, htop, hfil]
  · rintro ⟨t0, ht0, hfrag0⟩
    have htop : ¬topics = [] := by rintro rfl; cases ht0
    have hfil : ¬QueryBuilder.topicFragments topics = [] := by
      intro hc
      have hm0 : t0.query_fragment ∈ QueryBuilder.topicFragments topics :=
        List.mem_map_of_mem _ (List.mem_filter.mpr ⟨ht0, by simpa using hfrag0⟩)
      rw [hc] at hm0
      cases hm0
    have hmainfrag : ∀ frag ∈ QueryBuilder.topicFragments topics,
        strContains (QueryBuilder.mainQuery topics ibf) frag = true := by
      intro frag hm
      have hjoin : strContains (QueryBuilder.topicsQuery topics) frag = true :=
        strContains_trans
          (strContains_joinSep " OR " _ _
            (List.mem_map_of_mem (fun f => "(" ++ f ++ ")") hm))
          (strContains_wrap "(" frag ")")
      unfold QueryBuilder.mainQuery
      split
      · exact strContains_append_left _ _ _ (strContains_append_right _ _ _ hjoin)
      · exact strContains_append_left _ _ _ (strContains_append_right _ _ _ hjoin)
    have hbuild : QueryBuilder.build_pubmed_query topics exclusions ibf =
        (if exclusions ≠ [] then
          QueryBuilder.mainQuery topics ibf ++ " " ++ QueryBuilder.exclusionClauses exclusions
        else QueryBuilder.mainQuery topics ibf) := by
      unfold QueryBuilder.build_pubmed_query
      rw [if_neg htop, if_neg hfil]
    refine ⟨fun t ht hfragt => ?_, fun term hterm hterm0 => ?_⟩
    · have hm : t.query_fragment ∈ QueryBuilder.topicFragments topics :=
        List.mem_map_of_mem _ (List.mem_filter.mpr ⟨ht, by simpa using hfragt⟩)
      rw [hbuild]
      split
      · exact strContains_append_left _ _ _
          (strContains_append_left _ _ _ (hmainfrag _ hm))
      · exact hmainfrag _ hm
    · have hexc : exclusions ≠ [] := by rintro rfl; cases hterm
      have hmem2 : ("NOT " ++ term ++ "[tiab]") ∈
          (exclusions.filter (fun t => t ≠ "")).map (fun t => "NOT " ++ t ++ "[tiab]") :=
        List.mem_map_of_mem _ (List.mem_filter.mpr ⟨hterm, by simpa using hterm0⟩)
      rw [hbuild, if_pos hexc]
      exact strContains_append_right _ _ _ (strContains_joinSep " " _ _ hmem2)

/-- Witness for C8 at the spec's scenario input. -/
theorem build_pubmed_query_spec_witness :
    strContains (QueryBuilder.build_pubmed_query
        [{ name := "CVD", query_fragment := "cardiovascular[tiab]" }] ["pediatric"] true)
      "cardiovascular[tiab]" = true
    ∧ strContains (QueryBuilder.build_pubmed_query
        [{ name := "CVD", query_fragment := "cardiovascular[tiab]" }] ["pediatric"] true)
      ("NOT " ++ "pediatric" ++ "[tiab]") = true := by
  have h := (build_pubmed_query_spec
    [{ name := "CVD", query_fragment := "cardiovascular[tiab]" }] ["pediatric"] true).2
    ⟨{ name := "CVD", query_fragment := "cardiovascular[tiab]" }, by decide, by decide⟩
  exact ⟨h.1 { name := "CVD", query_fragment := "cardiovascular[tiab]" } (by decide) (by decide),
    h.2 "pediatric" (by decide) (by decide)⟩

/-! ## Scoring-engine lemmas -/

theorem chunksAux_flatten {α : Type} (size : Nat) :
    ∀ (fuel : Nat) (l : List α), (Gemini.chunksAux size fuel l).flatten = l := by
  intro fuel
  induction fuel with
  | zero => intro l; cases l <;> simp [Gemini.chunksAux]
  | succ fuel ih =>
    intro l
    cases l with
    | nil => simp [Gemini.chunksAux]
    | cons x xs => simp [Gemini.chunksAux, ih]

theorem chunks_flatten {α : Type} (size : Nat) (l : List α) :
    (Gemini.chunks size l).flatten = l :=
  chunksAux_flatten size l.length l

theorem chunksAux_subset {α : Type} (size : Nat) :
    ∀ (fuel : Nat) (l : List α), ∀ b ∈ Gemini.chunksAux size fuel l, b ⊆ l := by
  intro fuel
  induction fuel with
  | zero =>
    intro l b hb
    cases l with
    | nil => cases hb
    | cons x xs =>
      have : b = x :: xs := by simpa [Gemini.chunksAux] using hb
      subst this
      exact fun a ha => ha
  | succ fuel ih =>
    intro l b hb
    cases l with
    | nil => cases hb
    | cons x xs =>
      simp only [Gemini.chunksAux, List.mem_cons] at hb
      rcases hb with rfl | hb
      · intro a ha
        rcases List.mem_cons.mp ha with rfl | ha
        · exact List.mem_cons_self _ _
        · exact List.mem_cons_of_mem _ (List.take_subset _ _ ha)
      · intro a ha
        exact List.mem_cons_of_mem _ (List.drop_subset _ _ (ih _ b hb ha))

theorem chunks_subset {α : Type} (size : Nat) (l : List α) :
    ∀ b ∈ Gemini.chunks size l, b ⊆ l :=
  chunksAux_subset size l.length l

theorem applyObj_applyObj (p : Paper) (o1 o2 : Gemini.ScoreObj) :
    Gemini.applyObj (Gemini.applyObj p o1) o2 = Gemini.applyObj p o2 := rfl

theorem mem_setScores :
    ∀ (b : List Paper) (i : Nat) (o : Gemini.ScoreObj) (q : Paper),
      q ∈ Gemini.setScores b i o → q ∈ b ∨ ∃ p ∈ b, q = Gemini.applyObj p o := by
  intro b
  induction b with
  | nil => intro i o q hq; cases hq
  | cons p rest ih =>
    intro i o q hq
    cases i with
    | zero =>
      rcases List.mem_cons.mp hq with rfl | hq
      · exact Or.inr ⟨p, List.mem_cons_self _ _, rfl⟩
      · exact Or.inl (List.mem_cons_of_mem _ hq)
    | succ n =>
      rcases List.mem_cons.mp hq with rfl | hq
      · exact Or.inl (List.mem_cons_self _ _)
      · rcases ih n o q hq with h | ⟨p2, hp2, rfl⟩
        · exact Or.inl (List.mem_cons_of_mem _ h)
        · exact Or.inr ⟨p2, List.mem_cons_of_mem _ hp2, rfl⟩

theorem setScores_length :
    ∀ (b : List Paper) (i : Nat) (o : Gemini.ScoreObj),
      (Gemini.setScores b i o).length = b.length := by
  intro b
  induction b with
  | nil => intro i o; rfl
  | cons p rest ih =>
    intro i o
    cases i with
    | zero => rfl
    | succ n => simp [Gemini.setScores, ih]

theorem applyBatch_cons (b : List Paper) (o : Gemini.ScoreObj) (objs : List Gemini.ScoreObj) :
    Gemini.applyBatch b (o :: objs) =
      Gemini.applyBatch
        (if 0 ≤ o.index.getD (-1) ∧ o.index.getD (-1) < (b.length : Int) then
          Gemini.setScores b (o.index.getD (-1)).toNat o
        else b) objs := rfl

theorem applyBatch_length :
    ∀ (objs : List Gemini.ScoreObj) (b : List Paper),
      (Gemini.applyBatch b objs).length = b.length := by
  intro objs
  induction objs with
  | nil => intro b; rfl
  | cons o objs ih =>
    intro b
    rw [applyBatch_cons, ih]
    split
    · exact setScores_length b _ o
    · rfl

theorem mem_applyBatch :
    ∀ (objs : List Gemini.ScoreObj) (b : List Paper) (q : Paper),
      q ∈ Gemini.applyBatch b objs →
        q ∈ b ∨ ∃ p ∈ b, ∃ o ∈ objs, q = Gemini.applyObj p o := by
  intro objs
  induction objs with
  | nil => intro b q hq; exact Or.inl hq
  | cons o objs ih =>
    intro b q hq
    rw [applyBatch_cons] at hq
    have hstep : ∀ r, r ∈ (if 0 ≤ o.index.getD (-1) ∧ o.index.getD (-1) < (b.length : Int) then
        Gemini.setScores b (o.index.getD (-1)).toNat o else b) →
        r ∈ b ∨ ∃ p ∈ b, r = Gemini.applyObj p o := by
      intro r hr
      split at hr
      · exact mem_setScores b _ o r hr
      · exact Or.inl hr
    rcases ih _ q hq with hq2 | ⟨p2, hp2, o2, ho2, rfl⟩
    · rcases hstep q hq2 with h | ⟨p, hp, rfl⟩
      · exact Or.inl h
      · exact Or.inr ⟨p, hp, o, List.mem_cons_self _ _, rfl⟩
    · rcases hstep p2 hp2 with h | ⟨p, hp, rfl⟩
      · exact Or.inr ⟨p2, h, o2, List.mem_cons_of_mem _ ho2, rfl⟩
      · exact Or.inr ⟨p, hp, o2, List.mem_cons_of_mem _ ho2, applyObj_applyObj p o o2⟩

theorem scoreBatches_pres (P : Paper → Prop)
    (hP : ∀ p o, P p → P (Gemini.applyObj p o)) (oracle : Nat → Option (List Gemini.ScoreObj)) :
    ∀ (bs : List (List Paper)) (i : Nat), (∀ b ∈ bs, ∀ p ∈ b, P p) →
      ∀ b2 ∈ Gemini.scoreBatches oracle i bs, ∀ q ∈ b2, P q := by
  intro bs
  induction bs with
  | nil => intro i h b2 hb2; cases hb2
  | cons b rest ih =>
    intro i h b2 hb2
    rcases List.mem_cons.mp hb2 with rfl | hb2
    · intro q hq
      rcases hoc : oracle i with _ | objs
      · simp only [Gemini.scoreBatches, hoc] at hq
        exact h b (List.mem_cons_self _ _) q hq
      · simp only [Gemini.scoreBatches, hoc] at hq
        rcases mem_applyBatch objs b q hq with hq2 | ⟨p, hp, o, _, rfl⟩
        · exact h b (List.mem_cons_self _ _) q hq2
        · exact hP p o (h b (List.mem_cons_self _ _) p hp)
    · exact ih (i + 1) (fun b3 hb3 => h b3 (List.mem_cons_of_mem _ hb3)) b2 hb2

theorem batch_triage_pres (papers : List Paper) (n : Nat) (wl bl : List String)
    (oracle : Nat → Option (List Gemini.ScoreObj)) (P : Paper → Prop)
    (hinit : ∀ p ∈ papers, P (Gemini.initPaper wl p))
    (happly : ∀ p o, P p → P (Gemini.applyObj p o))
    (hboost : ∀ p, P p → P (Gemini.boostOne p)) :
    ∀ q ∈ (Gemini.batch_triage_papers papers n wl bl oracle).1, P q := by
  intro q hq
  simp only [Gemini.batch_triage_papers, Gemini.applyWhitelistBoost] at hq
  rcases List.mem_map.mp hq with ⟨q0, hq0, rfl⟩
  apply hboost
  simp only [Gemini.scoredPapers] at hq0
  rcases List.mem_flatten.mp hq0 with ⟨b2, hb2, hq0b⟩
  refine scoreBatches_pres P happly oracle _ 0 ?_ b2 hb2 q0 hq0b
  intro b hb p hp
  have hp2 := chunks_subset n _ b hb hp
  rcases List.mem_map.mp hp2 with ⟨p0, hp0, rfl⟩
  exact hinit p0 (List.mem_of_mem_filter hp0)

theorem scoreBatches_triage_provenance (oracle : Nat → Option (List Gemini.ScoreObj)) :
    ∀ (bs : List (List Paper)) (i : Nat),
      (∀ b ∈ bs, ∀ p ∈ b, p.triage_score = some (-1)) →
      ∀ b2 ∈ Gemini.scoreBatches oracle i bs, ∀ q ∈ b2,
        q.triage_score = some (-1) ∨
          ∃ j objs o, oracle j = some objs ∧ o ∈ objs ∧
            q.triage_score = some (o.relevance.getD (-1)) := by
  intro bs
  induction bs with
  | nil => intro i h b2 hb2; cases hb2
  | cons b rest ih =>
    intro i h b2 hb2
    rcases List.mem_cons.mp hb2 with rfl | hb2
    · intro q hq
      rcases hoc : oracle i with _ | objs
      · simp only [Gemini.scoreBatches, hoc] at hq
        exact Or.inl (h b (List.mem_cons_self _ _) q hq)
      · simp only [Gemini.scoreBatches, hoc] at hq
        rcases mem_applyBatch objs b q hq with hq2 | ⟨p, hp, o, ho, rfl⟩
        · exact Or.inl (h b (List.mem_cons_self _ _) q hq2)
        · exact Or.inr ⟨i, objs, o, hoc, ho, rfl⟩
    · exact ih (i + 1) (fun b3 hb3 => h b3 (List.mem_cons_of_mem _ hb3)) b2 hb2

theorem scoredPapers_triage_provenance (papers : List Paper) (n : Nat) (wl bl : List String)
    (oracle : Nat → Option (List Gemini.ScoreObj)) :
    ∀ q ∈ Gemini.scoredPapers papers n wl bl oracle,
      q.triage_score = some (-1) ∨
        ∃ j objs o, oracle j = some objs ∧ o ∈ objs ∧
          q.triage_score = some (o.relevance.getD (-1)) := by
  intro q hq
  simp only [Gemini.scoredPapers] at hq
  rcases List.mem_flatten.mp hq with ⟨b2, hb2, hqb⟩
  refine scoreBatches_triage_provenance oracle _ 0 ?_ b2 hb2 q hqb
  intro b hb p hp
  have hp2 := chunks_subset n _ b hb hp
  rcases List.mem_map.mp hp2 with ⟨p0, _, rfl⟩
  rfl

/-! ## Claim C4 -/

/-- **C4.**  The scoring step never assigns a frontier dimension: for any
input whose papers carry no `frontier_score` (as every fetcher produces them),
every paper coming out of `batch_triage_papers` still carries none — even when
the response objects include a `frontier` value, the parser (lines 204-212)
reads only `relevance`, `evidence` and `actionability`.  This contradicts the
claim (and the module's own stated design) that the frontier pipeline requests
and parses a fourth `frontierScore` dimension. -/
theorem no_frontier_dimension_assigned (papers : List Paper) (n : Nat) (wl bl : List String)
    (oracle : Nat → Option (List Gemini.ScoreObj))
    (h : ∀ p ∈ papers, p.frontier_score = none) :
    ∀ q ∈ (Gemini.batch_triage_papers papers n wl bl oracle).1, q.frontier_score = none := by
  refine batch_triage_pres papers n wl bl oracle (fun p => p.frontier_score = none) ?_ ?_ ?_
  · intro p hp
    exact h p hp
  · intro p o hp
    exact hp
  · intro p hp
    unfold Gemini.boostOne
    split
    · exact hp
    · exact hp

/-- Witness for C4: a response that does carry a `frontier` value, which the
parser ignores. -/
theorem no_frontier_dimension_assigned_witness :
    (∀ p ∈ ([{ title := "a" }] : List Paper), p.frontier_score = none)
    ∧ ∀ q ∈ (Gemini.batch_triage_papers [{ title := "a" }] 10 [] []
        (fun i => if i = 0 then
          some [{ index := some 0, relevance := some 6, evidence := some 5,
                  actionability := some 5, frontier := some 9 }]
        else none)).1, q.frontier_score = none :=
  ⟨by decide, no_frontier_dimension_assigned [{ title := "a" }] 10 [] [] _ (by decide)⟩

/-! ## Claim C5 -/

/-- **C5** counterexample: a batch response carrying `relevance = 11` for a
non-whitelisted paper passes through unclamped, so a document can end with
relevance above 10, contrary to the claim's last clause. -/
theorem relevance_above_ten_counterexample :
    ((Gemini.batch_triage_papers [{ title := "a" }] 10 [] []
        (fun i => if i = 0 then
          some [{ index := some 0, relevance := some 11, evidence := some 5,
                  actionability := some 5 }]
        else none)).1.all
      (fun q => decide (q.triage_score.getD (-1) ≤ 10))) = false := by decide

/-- **C5** (amended).  The whitelist boost is a single final pass: a paper
with the flag and a non-negative relevance gets exactly
`min 10 (relevance + 2)`; any other paper is left unchanged; the boost never
raises relevance above 10 (the result is bounded by `max 10` of the input);
and a document can end with relevance above 10 only when a batch response
supplied a relevance value above 10 — the boost itself never produces one. -/
theorem whitelist_boost_spec (papers : List Paper) (n : Nat) (wl bl : List String)
    (oracle : Nat → Option (List Gemini.ScoreObj)) :
    (Gemini.batch_triage_papers papers n wl bl oracle).1 =
      (Gemini.scoredPapers papers n wl bl oracle).map Gemini.boostOne
    ∧ (∀ p : Paper, p.whitelisted.getD false = true → 0 ≤ p.triage_score.getD (-1) →
        Gemini.boostOne p =
          { p with triage_score := some (min 10 (p.triage_score.getD (-1) + 2)) })
    ∧ (∀ p : Paper, ¬(p.whitelisted.getD false = true ∧ 0 ≤ p.triage_score.getD (-1)) →
        Gemini.boostOne p = p)
    ∧ (∀ p : Paper,
        (Gemini.boostOne p).triage_score.getD (-1) ≤ max 10 (p.triage_score.getD (-1)))
    ∧ (∀ q ∈ (Gemini.batch_triage_papers papers n wl bl oracle).1,
        q.triage_score.getD (-1) ≤ 10 ∨
          ∃ j objs o, oracle j = some objs ∧ o ∈ objs ∧ 10 < o.relevance.getD (-1)) := by
  refine ⟨rfl, ?_, ?_, ?_, ?_⟩
  · intro p h1 h2
    unfold Gemini.boostOne
    rw [if_pos ⟨h1, h2⟩]
  · intro p h
    unfold Gemini.boostOne
    rw [if_neg h]
  · intro p
    unfold Gemini.boostOne
    split
    · show min 10 (p.triage_score.getD (-1) + 2) ≤ max 10 (p.triage_score.getD (-1))
      omega
    · exact le_max_right _ _
  · intro q hq
    simp only [Gemini.batch_triage_papers, Gemini.applyWhitelistBoost] at hq
    rcases List.mem_map.mp hq with ⟨q0, hq0, rfl⟩
    rcases scoredPapers_triage_provenance papers n wl bl oracle q0 hq0 with h1 |
      ⟨j, objs, o, hj, ho, heq⟩
    · left
      unfold Gemini.boostOne
      split
      · next hcond =>
        rw [h1] at hcond
        simp only [Option.getD_some] at hcond
        omega
      · rw [h1]
        decide
    · rcases le_or_lt (o.relevance.getD (-1)) 10 with hle | hgt
      · left
        unfold Gemini.boostOne
        split
        · show min 10 (q0.triage_score.getD (-1) + 2) ≤ 10
          omega
        · rw [heq]
          simpa using hle
      · exact Or.inr ⟨j, objs, o, hj, ho, hgt⟩

/-- Witness for C5: a whitelisted paper at relevance 9 is boosted to exactly
10, and a non-whitelisted paper is left unchanged. -/
theorem whitelist_boost_spec_witness :
    Gemini.boostOne { whitelisted := some true, triage_score := some 9 } =
      { whitelisted := some true, triage_score := some 10 }
    ∧ Gemini.boostOne { triage_score := some 5 } = { triage_score := some 5 } := by
  have h1 := (whitelist_boost_spec [] 10 [] [] (fun _ => none)).2.1
    { whitelisted := some true, triage_score := some 9 } (by decide) (by decide)
  have h2 := (whitelist_boost_spec [] 10 [] [] (fun _ => none)).2.2.1
    { triage_score := some 5 } (by decide)
  exact ⟨h1.trans (by decide), h2⟩

/-! ## Claim C10 -/

/-- **C10.**  Since no component ever assigns `frontier_score`, every paper
reaching the frontier selection reads it as the default 0, below the minimum
frontier score of 6: the score-filtered branch is always empty and the
selected list consists exclusively of always-include (ITP) papers.  The
statement covers the full pipeline from scoring through the posted-PMID
filter to selection. -/
theorem frontier_selection_only_itp (papers : List Paper) (n : Nat) (wl bl : List String)
    (oracle : Nat → Option (List Gemini.ScoreObj)) (posted : List String)
    (h : ∀ p ∈ papers, p.frontier_score = none) :
    FrontierDigest.otherPapers
        (((Gemini.batch_triage_papers papers n wl bl oracle).1).filter
          (fun p => !posted.contains p.pmid)) = []
    ∧ FrontierDigest.frontier_select
        (((Gemini.batch_triage_papers papers n wl bl oracle).1).filter
          (fun p => !posted.contains p.pmid)) =
      (FrontierDigest.itpPapers
        (((Gemini.batch_triage_papers papers n wl bl oracle).1).filter
          (fun p => !posted.contains p.pmid))).take FrontierDigest.TOP_N_PAPERS
    ∧ ∀ q ∈ FrontierDigest.frontier_select
        (((Gemini.batch_triage_papers papers n wl bl oracle).1).filter
          (fun p => !posted.contains p.pmid)),
        q.is_itp.getD false = true := by
  have hfr : ∀ p ∈ ((Gemini.batch_triage_papers papers n wl bl oracle).1).filter
      (fun p => !posted.contains p.pmid), p.frontier_score = none := by
    intro p hp
    refine batch_triage_pres papers n wl bl oracle (fun r => r.frontier_score = none)
      (fun r hr => h r hr) (fun r o hr => hr) ?_ p (List.mem_of_mem_filter hp)
    intro r hr
    unfold Gemini.boostOne
    split
    · exact hr
    · exact hr
  have hother : FrontierDigest.otherPapers
      (((Gemini.batch_triage_papers papers n wl bl oracle).1).filter
        (fun p => !posted.contains p.pmid)) = [] := by
    unfold FrontierDigest.otherPapers
    rw [List.filter_eq_nil_iff]
    intro sp hsp
    rcases List.mem_map.mp hsp with ⟨p, hp, rfl⟩
    have hfs : (FrontierDigest.scorePaper p).frontier_score = none := hfr p hp
    simp [hfs, FrontierDigest.MIN_FRONTIER_SCORE]
  have hsorted : FrontierDigest.sortedOtherPapers
      (((Gemini.batch_triage_papers papers n wl bl oracle).1).filter
        (fun p => !posted.contains p.pmid)) = [] := by
    unfold FrontierDigest.sortedOtherPapers
    rw [hother]
    rfl
  refine ⟨hother, ?_, ?_⟩
  · unfold FrontierDigest.frontier_select
    rw [hsorted, List.append_nil]
  · intro q hq
    unfold FrontierDigest.frontier_select at hq
    rw [hsorted, List.append_nil] at hq
    have hq2 := List.take_subset _ _ hq
    exact (List.mem_filter.mp hq2).2

/-- Witness for C10: a two-paper run (one ITP title, one plain paper with good
scores) selects only the ITP paper and the score-filtered branch is empty. -/
theorem frontier_selection_only_itp_witness :
    (∀ p ∈ ([{ title := "nia itp annual results" }, { title := "plain paper" }] : List Paper),
      p.frontier_score = none)
    ∧ FrontierDigest.otherPapers
        (((Gemini.batch_triage_papers [{ title := "nia itp annual results" },
            { title := "plain paper" }] 10 [] []
          (fun i => if i = 0 then
            some [{ index := some 0, relevance := some 8, evidence := some 8,
                    actionability := some 8 },
                  { index := some 1, relevance := some 9, evidence := some 9,
                    actionability := some 9 }]
          else none)).1).filter (fun p => !([] : List String).contains p.pmid)) = []
    ∧ ∀ q ∈ FrontierDigest.frontier_select
        (((Gemini.batch_triage_papers [{ title := "nia itp annual results" },
            { title := "plain paper" }] 10 [] []
          (fun i => if i = 0 then
            some [{ index := some 0, relevance := some 8, evidence := some 8,
                    actionability := some 8 },
                  { index := some 1, relevance := some 9, evidence := some 9,
                    actionability := some 9 }]
          else none)).1).filter (fun p => !([] : List String).contains p.pmid)),
        q.is_itp.getD false = true := by
  have h := frontier_selection_only_itp
    [{ title := "nia itp annual results" }, { title := "plain paper" }] 10 [] []
    (fun i => if i = 0 then
      some [{ index := some 0, relevance := some 8, evidence := some 8,
              actionability := some 8 },
            { index := some 1, relevance := some 9, evidence := some 9,
              actionability := some 9 }]
    else none) [] (by decide)
  exact ⟨by decide, h.1, h.2.2⟩

/-! ## Claim C6 -/

theorem scoreBatches_getElem (oracle : Nat → Option (List Gemini.ScoreObj)) :
    ∀ (bs : List (List Paper)) (i j : Nat),
      (Gemini.scoreBatches oracle i bs)[j]? =
        (bs[j]?).map (fun b => match oracle (i + j) with
          | none => b
          | some objs => Gemini.applyBatch b objs) := by
  intro bs
  induction bs with
  | nil => intro i j; simp [Gemini.scoreBatches]
  | cons b rest ih =>
    intro i j
    cases j with
    | zero => simp [Gemini.scoreBatches]
    | succ j =>
      simp only [Gemini.scoreBatches, List.getElem?_cons_succ]
      rw [ih (i + 1) j]
      have harith : i + 1 + j = i + (j + 1) := by omega
      rw [harith]

theorem countFailures_eq (oracle : Nat → Option (List Gemini.ScoreObj)) :
    ∀ (bs : List (List Paper)) (i : Nat),
      Gemini.countFailures oracle i bs =
        (List.range bs.length).countP (fun j => (oracle (i + j)).isNone) := by
  intro bs
  induction bs with
  | nil => intro i; simp [Gemini.countFailures]
  | cons b rest ih =>
    intro i
    simp only [Gemini.countFailures]
    rw [ih (i + 1), List.length_cons, List.range_succ_eq_map, List.countP_cons,
      List.countP_map]
    have hfun : ((fun j => (oracle (i + j)).isNone) ∘ Nat.succ) =
        (fun j => (oracle (i + 1 + j)).isNone) := by
      funext j
      simp only [Function.comp_apply]
      have hj : i + Nat.succ j = i + 1 + j := by omega
      rw [hj]
    rw [hfun]
    simp only [Nat.add_zero]
    exact Nat.add_comm _ _

/-- **C6.**  Batch scoring failures are non-fatal and independent: the error
count equals the number of failed batches; the output decomposes positionally
into the per-batch results (each boosted independently); a failed batch is
returned untouched, and its papers all still carry the three sentinel `−1`
scores and are unaffected by the whitelist boost; a batch's processed result
depends only on that batch's own oracle outcome; and a returned score object
whose index lies outside the batch range is ignored. -/
theorem batch_failure_independence_spec (papers : List Paper) (n : Nat) (wl bl : List String)
    (oracle : Nat → Option (List Gemini.ScoreObj)) :
    ((Gemini.batch_triage_papers papers n wl bl oracle).2 =
      (List.range (Gemini.batches papers n wl bl).length).countP (fun j => (oracle j).isNone))
    ∧ ((Gemini.batch_triage_papers papers n wl bl oracle).1 =
        ((Gemini.scoreBatches oracle 0 (Gemini.batches papers n wl bl)).map
          (List.map Gemini.boostOne)).flatten)
    ∧ (∀ j, (oracle j).isNone →
        (Gemini.scoreBatches oracle 0 (Gemini.batches papers n wl bl))[j]? =
          (Gemini.batches papers n wl bl)[j]?)
    ∧ (∀ (j : Nat) (b : List Paper), (Gemini.batches papers n wl bl)[j]? = some b → ∀ p ∈ b,
        p.triage_score = some (-1) ∧ p.evidence_score = some (-1) ∧
        p.actionability_score = some (-1) ∧ Gemini.boostOne p = p)
    ∧ (∀ oracle2 j, oracle j = oracle2 j →
        (Gemini.scoreBatches oracle 0 (Gemini.batches papers n wl bl))[j]? =
          (Gemini.scoreBatches oracle2 0 (Gemini.batches papers n wl bl))[j]?)
    ∧ (∀ (b : List Paper) (objs : List Gemini.ScoreObj) (o : Gemini.ScoreObj),
        ¬(0 ≤ o.index.getD (-1) ∧ o.index.getD (-1) < (b.length : Int)) →
        Gemini.applyBatch b (objs ++ [o]) = Gemini.applyBatch b objs) := by
  refine ⟨?_, ?_, ?_, ?_, ?_, ?_⟩
  · simpa using countFailures_eq oracle (Gemini.batches papers n wl bl) 0
  · simp only [Gemini.batch_triage_papers, Gemini.applyWhitelistBoost, Gemini.scoredPapers]
    rw [List.map_flatten]
  · intro j hj
    rw [scoreBatches_getElem oracle (Gemini.batches papers n wl bl) 0 j]
    rw [Option.isNone_iff_eq_none] at hj
    simp only [Nat.zero_add, hj]
    cases (Gemini.batches papers n wl bl)[j]? <;> rfl
  · intro j b hb p hp
    have hbmem : b ∈ Gemini.batches papers n wl bl := by
      obtain ⟨hlt, rfl⟩ := List.getElem?_eq_some_iff.mp hb
      exact List.getElem_mem hlt
    have hp2 := chunks_subset n _ b hbmem hp
    rcases List.mem_map.mp hp2 with ⟨p0, _, rfl⟩
    refine ⟨rfl, rfl, rfl, ?_⟩
    unfold Gemini.boostOne
    rw [if_neg]
    rintro ⟨_, hc⟩
    simp only [Gemini.initPaper, Option.getD_some] at hc
    omega
  · intro oracle2 j hj
    rw [scoreBatches_getElem oracle _ 0 j, scoreBatches_getElem oracle2 _ 0 j]
    simp only [Nat.zero_add, hj]
  · intro b objs o hno
    simp only [Gemini.applyBatch, List.foldl_append, List.foldl_cons, List.foldl_nil]
    rw [if_neg]
    intro hc
    apply hno
    have hlen : (Gemini.applyBatch b objs).length = b.length := applyBatch_length objs b
    simp only [Gemini.applyBatch] at hlen
    rw [hlen] at hc
    exact hc

/-- Witness for C6: two batches of size 2 over three papers; batch 0 fails,
batch 1 succeeds with one valid score object and one out-of-range object. -/
theorem batch_failure_independence_witness :
    (Gemini.batch_triage_papers [{ title := "a" }, { title := "b" }, { title := "c" }] 2 [] []
      (fun i => if i = 0 then none
        else some [{ index := some 0, relevance := some 7, evidence := some 6,
                     actionability := some 5 },
                   { index := some 9, relevance := some 1 }])).2 = 1
    ∧ (Gemini.scoreBatches
        (fun i => if i = 0 then none
          else some [{ index := some 0, relevance := some 7, evidence := some 6,
                       actionability := some 5 },
                     { index := some 9, relevance := some 1 }]) 0
        (Gemini.batches [{ title := "a" }, { title := "b" }, { title := "c" }] 2 [] []))[0]? =
      (Gemini.batches [{ title := "a" }, { title := "b" }, { title := "c" }] 2 [] [])[0]?
    ∧ Gemini.applyBatch [{ title := "c", triage_score := some (-1) }]
        ([] ++ [{ index := some 9, relevance := some 1 }]) =
      Gemini.applyBatch [{ title := "c", triage_score := some (-1) }] [] := by
  have h := batch_failure_independence_spec [{ title := "a" }, { title := "b" }, { title := "c" }]
    2 [] [] (fun i => if i = 0 then none
      else some [{ index := some 0, relevance := some 7, evidence := some 6,
                   actionability := some 5 },
                 { index := some 9, relevance := some 1 }])
  refine ⟨h.1.trans (by decide), h.2.2.1 0 (by decide), ?_⟩
  exact h.2.2.2.2.2 [{ title := "c", triage_score := some (-1) }] []
    { index := some 9, relevance := some 1 } (by decide)

/-! ## Claim C2 -/

theorem mem_insertDesc (p : Paper) :
    ∀ (l : List Paper) (q : Paper), q ∈ FrontierDigest.insertDesc p l ↔ q = p ∨ q ∈ l := by
  intro l
  induction l with
  | nil => intro q; simp [FrontierDigest.insertDesc]
  | cons r rest ih =>
    intro q
    unfold FrontierDigest.insertDesc
    split
    · simp
    · rw [List.mem_cons, ih q, List.mem_cons]
      tauto

theorem mem_sortedOtherPapers (papers : List Paper) (q : Paper) :
    q ∈ FrontierDigest.sortedOtherPapers papers ↔ q ∈ FrontierDigest.otherPapers papers := by
  unfold FrontierDigest.sortedOtherPapers
  generalize FrontierDigest.otherPapers papers = l
  induction l with
  | nil => simp
  | cons r rest ih =>
    simp only [List.foldr_cons, mem_insertDesc, ih, List.mem_cons]

theorem itpPapers_flag (papers : List Paper) :
    ∀ q ∈ FrontierDigest.itpPapers papers, q.is_itp.getD false = true := by
  intro q hq
  exact (List.mem_filter.mp hq).2

theorem sortedOtherPapers_flag (papers : List Paper) :
    ∀ q ∈ FrontierDigest.sortedOtherPapers papers, q.is_itp.getD false = false := by
  intro q hq
  have hq2 : q ∈ FrontierDigest.otherPapers papers := (mem_sortedOtherPapers papers q).mp hq
  have hcond := (List.mem_filter.mp hq2).2
  cases hflag : q.is_itp.getD false
  · rfl
  · rw [hflag] at hcond
    simp at hcond

/-- **C2.**  An always-include (ITP) document bypasses both score filters:
its scored version is in the always-include branch regardless of any score
field, in the concatenated pre-truncation list every always-include entry
precedes every score-filtered entry, and whenever the always-include branch
fits within `topN` the document appears in the final selected list. -/
theorem frontier_always_include_spec (papers : List Paper) (p : Paper)
    (hp : p ∈ papers) (hitp : FrontierDigest.is_itp_paper p = true) :
    FrontierDigest.scorePaper p ∈ FrontierDigest.itpPapers papers
    ∧ (∀ (i j : Nat)
        (hi : i < (FrontierDigest.itpPapers papers ++
          FrontierDigest.sortedOtherPapers papers).length)
        (hj : j < (FrontierDigest.itpPapers papers ++
          FrontierDigest.sortedOtherPapers papers).length),
        ((FrontierDigest.itpPapers papers ++
          FrontierDigest.sortedOtherPapers papers).get ⟨i, hi⟩).is_itp.getD false = true →
        ((FrontierDigest.itpPapers papers ++
          FrontierDigest.sortedOtherPapers papers).get ⟨j, hj⟩).is_itp.getD false = false →
        i < j)
    ∧ ((FrontierDigest.itpPapers papers).length ≤ FrontierDigest.TOP_N_PAPERS →
        FrontierDigest.scorePaper p ∈ FrontierDigest.frontier_select papers) := by
  have hflag : (FrontierDigest.scorePaper p).is_itp = some true := by
    simp [FrontierDigest.scorePaper, hitp]
  have hmemitp : FrontierDigest.scorePaper p ∈ FrontierDigest.itpPapers papers := by
    unfold FrontierDigest.itpPapers FrontierDigest.scoreStep
    refine List.mem_filter.mpr ⟨List.mem_map_of_mem _ hp, ?_⟩
    rw [hflag]
    rfl
  refine ⟨hmemitp, ?_, ?_⟩
  · intro i j hi hj hti htj
    have hi2 : i < (FrontierDigest.itpPapers papers).length := by
      by_contra hcon
      push_neg at hcon
      have heq : (FrontierDigest.itpPapers papers ++
          FrontierDigest.sortedOtherPapers papers).get ⟨i, hi⟩ =
          (FrontierDigest.sortedOtherPapers papers).get
            ⟨i - (FrontierDigest.itpPapers papers).length, by
              have := List.length_append (FrontierDigest.itpPapers papers)
                (FrontierDigest.sortedOtherPapers papers)
              omega⟩ := by
        rw [List.get_eq_getElem, List.get_eq_getElem, List.getElem_append_right hcon]
      have hmem : (FrontierDigest.itpPapers papers ++
          FrontierDigest.sortedOtherPapers papers).get ⟨i, hi⟩ ∈
          FrontierDigest.sortedOtherPapers papers := by
        rw [heq]
        exact List.get_mem _ _ _
      have := sortedOtherPapers_flag papers _ hmem
      rw [hti] at this
      cases this
    have hj2 : (FrontierDigest.itpPapers papers).length ≤ j := by
      by_contra hcon
      push_neg at hcon
      have heq : (FrontierDigest.itpPapers papers ++
          FrontierDigest.sortedOtherPapers papers).get ⟨j, hj⟩ =
          (FrontierDigest.itpPapers papers).get ⟨j, hcon⟩ := by
        rw [List.get_eq_getElem, List.get_eq_getElem, List.getElem_append_left hcon]
      have hmem : (FrontierDigest.itpPapers papers ++
          FrontierDigest.sortedOtherPapers papers).get ⟨j, hj⟩ ∈
          FrontierDigest.itpPapers papers := by
        rw [heq]
        exact List.get_mem _ _ _
      have := itpPapers_flag papers _ hmem
      rw [htj] at this
      cases this
    omega
  · intro hlen
    unfold FrontierDigest.frontier_select
    rw [List.take_append_eq_append_take, List.take_of_length_le hlen]
    exact List.mem_append_left _ hmemitp

/-- Witness for C2: an ITP-titled paper whose combined and frontier-combined
scores are far below the thresholds still appears in the selected list, ahead
of a score-filtered paper. -/
theorem frontier_always_include_witness :
    FrontierDigest.scorePaper
        { title := "nia itp annual results", triage_score := some 1,
          evidence_score := some 1, actionability_score := some 1 } ∈
      FrontierDigest.itpPapers
        [{ title := "nia itp annual results", triage_score := some 1,
           evidence_score := some 1, actionability_score := some 1 },
         { title := "good paper", triage_score := some 8, evidence_score := some 8,
           actionability_score := some 8, frontier_score := some 8 }]
    ∧ FrontierDigest.scorePaper
        { title := "nia itp annual results", triage_score := some 1,
          evidence_score := some 1, actionability_score := some 1 } ∈
      FrontierDigest.frontier_select
        [{ title := "nia itp annual results", triage_score := some 1,
           evidence_score := some 1, actionability_score := some 1 },
         { title := "good paper", triage_score := some 8, evidence_score := some 8,
           actionability_score := some 8, frontier_score := some 8 }]
    ∧ (FrontierDigest.scorePaper
        { title := "nia itp annual results", triage_score := some 1,
          evidence_score := some 1, actionability_score := some 1 }).combined_score.getD 0 <
        FrontierDigest.MIN_COMBINED_SCORE
    ∧ (FrontierDigest.scorePaper
        { title := "nia itp annual results", triage_score := some 1,
          evidence_score := some 1, actionability_score := some 1 }).frontier_combined_score.getD 0 <
        FrontierDigest.MIN_COMBINED_SCORE := by
  have h := frontier_always_include_spec
    [{ title := "nia itp annual results", triage_score := some 1,
       evidence_score := some 1, actionability_score := some 1 },
     { title := "good paper", triage_score := some 8, evidence_score := some 8,
       actionability_score := some 8, frontier_score := some 8 }]
    { title := "nia itp annual results", triage_score := some 1,
      evidence_score := some 1, actionability_score := some 1 }
    (by decide) (by decide)
  exact ⟨h.1, h.2.2 (by decide), by decide, by decide⟩

/-! ## Claim C7 -/

/-- Two papers share an identifier when they agree on a non-empty `doi` or a
non-empty `pmid`; this is the spec's "identity comparison only triggers when
both sides have a non-empty value for the same field" (agreement on a
non-empty value forces both values non-empty). -/
def sharesId (q p : Paper) : Bool :=
  decide (q.doi ≠ "" ∧ q.doi = p.doi) || decide (q.pmid ≠ "" ∧ q.pmid = p.pmid)

/-- The deduplication rule as the spec words it: scan in order and keep a
document iff no previously kept document shares a non-empty identifier with
it. -/
def specDedupAux (kept : List Paper) : List Paper → List Paper
  | [] => []
  | p :: rest =>
    if kept.any (fun q => sharesId q p) then specDedupAux kept rest
    else p :: specDedupAux (kept ++ [p]) rest

/-- `specDedupAux` started with nothing kept. -/
def specDedup (l : List Paper) : List Paper := specDedupAux [] l

theorem dedupAux_sublist :
    ∀ (l : List Paper) (seenD seenP : List String),
      List.Sublist (FrontierDigest.dedupAux seenD seenP l) l := by
  intro l
  induction l with
  | nil => intro seenD seenP; exact List.Sublist.refl []
  | cons p rest ih =>
    intro seenD seenP
    unfold FrontierDigest.dedupAux
    split
    · exact (ih seenD seenP).trans (List.sublist_cons_self p rest)
    · exact (ih _ _).cons₂ p

theorem seen_invariant_step (seen : List String) (kept : List Paper) (p : Paper)
    (f : Paper → String)
    (h : ∀ s : String, s ∈ seen ↔ s ≠ "" ∧ ∃ q ∈ kept, f q = s) :
    ∀ s : String, s ∈ (if f p ≠ "" then f p :: seen else seen) ↔
      s ≠ "" ∧ ∃ q ∈ kept ++ [p], f q = s := by
  intro s
  constructor
  · intro hs
    split at hs
    · next hfp =>
      rcases List.mem_cons.mp hs with rfl | hs
      · exact ⟨hfp, p, List.mem_append_right _ (List.mem_singleton.mpr rfl), rfl⟩
      · obtain ⟨hne, q, hq, hfq⟩ := (h s).mp hs
        exact ⟨hne, q, List.mem_append_left _ hq, hfq⟩
    · obtain ⟨hne, q, hq, hfq⟩ := (h s).mp hs
      exact ⟨hne, q, List.mem_append_left _ hq, hfq⟩
  · rintro ⟨hne, q, hq, hfq⟩
    rcases List.mem_append.mp hq with hq | hq
    · have hmem : s ∈ seen := (h s).mpr ⟨hne, q, hq, hfq⟩
      split
      · exact List.mem_cons_of_mem _ hmem
      · exact hmem
    · have hqp : q = p := List.mem_singleton.mp hq
      subst hqp
      rw [if_pos (by rw [hfq]; exact hne)]
      exact List.mem_cons.mpr (Or.inl hfq.symm)

theorem dedupAux_eq_specAux :
    ∀ (l : List Paper) (seenD seenP : List String) (kept : List Paper),
      (∀ d : String, d ∈ seenD ↔ d ≠ "" ∧ ∃ q ∈ kept, q.doi = d) →
      (∀ m : String, m ∈ seenP ↔ m ≠ "" ∧ ∃ q ∈ kept, q.pmid = m) →
      FrontierDigest.dedupAux seenD seenP l = specDedupAux kept l := by
  intro l
  induction l with
  | nil => intro seenD seenP kept hD hP; rfl
  | cons p rest ih =>
    intro seenD seenP kept hD hP
    have hcond : ((p.doi ≠ "" ∧ p.doi ∈ seenD) ∨ (p.pmid ≠ "" ∧ p.pmid ∈ seenP)) ↔
        (kept.any (fun q => sharesId q p) = true) := by
      rw [List.any_eq_true]
      constructor
      · rintro (⟨hne, hmem⟩ | ⟨hne, hmem⟩)
        · obtain ⟨_, q, hq, hdq⟩ := (hD p.doi).mp hmem
          refine ⟨q, hq, ?_⟩
          unfold sharesId
          simp [hdq, hne]
        · obtain ⟨_, q, hq, hmq⟩ := (hP p.pmid).mp hmem
          refine ⟨q, hq, ?_⟩
          unfold sharesId
          simp [hmq, hne]
      · rintro ⟨q, hq, hshares⟩
        unfold sharesId at hshares
        simp only [Bool.or_eq_true, decide_eq_true_eq] at hshares
        rcases hshares with ⟨hne, heq⟩ | ⟨hne, heq⟩
        · exact Or.inl ⟨heq ▸ hne, (hD p.doi).mpr ⟨heq ▸ hne, q, hq, heq⟩⟩
        · exact Or.inr ⟨heq ▸ hne, (hP p.pmid).mpr ⟨heq ▸ hne, q, hq, heq⟩⟩
    by_cases hdup : (p.doi ≠ "" ∧ p.doi ∈ seenD) ∨ (p.pmid ≠ "" ∧ p.pmid ∈ seenP)
    · rw [FrontierDigest.dedupAux.eq_def]
      simp only [if_pos hdup]
      rw [specDedupAux.eq_def]
      simp only [if_pos (hcond.mp hdup)]
      exact ih seenD seenP kept hD hP
    · rw [FrontierDigest.dedupAux.eq_def]
      simp only [if_neg hdup]
      rw [specDedupAux.eq_def]
      simp only [if_neg (fun hc => hdup (hcond.mpr hc))]
      congr 1
      exact ih _ _ (kept ++ [p])
        (seen_invariant_step seenD kept p (fun r => r.doi) hD)
        (seen_invariant_step seenP kept p (fun r => r.pmid) hP)

theorem specDedupAux_append :
    ∀ (l₁ l₂ kept : List Paper),
      specDedupAux kept (l₁ ++ l₂) =
        specDedupAux kept l₁ ++ specDedupAux (kept ++ specDedupAux kept l₁) l₂ := by
  intro l₁
  induction l₁ with
  | nil => intro l₂ kept; simp [specDedupAux]
  | cons p rest ih =>
    intro l₂ kept
    by_cases h : kept.any (fun q => sharesId q p) = true
    · simp only [List.cons_append, specDedupAux, if_pos h]
      exact ih l₂ kept
    · simp only [List.cons_append, specDedupAux, if_neg h, List.append_eq]
      rw [ih l₂ (kept ++ [p])]
      simp [List.append_assoc]

theorem specDedupAux_countP_emptyIds :
    ∀ (l kept : List Paper),
      (specDedupAux kept l).countP (fun p => decide (p.doi = "" ∧ p.pmid = "")) =
        l.countP (fun p => decide (p.doi = "" ∧ p.pmid = "")) := by
  intro l
  induction l with
  | nil => intro kept; rfl
  | cons p rest ih =>
    intro kept
    by_cases h : kept.any (fun q => sharesId q p) = true
    · have hne : ¬(p.doi = "" ∧ p.pmid = "") := by
        rcases List.any_eq_true.mp h with ⟨q, _, hshares⟩
        unfold sharesId at hshares
        simp only [Bool.or_eq_true, decide_eq_true_eq] at hshares
        rintro ⟨hdoi, hpmid⟩
        rcases hshares with ⟨hne2, heq⟩ | ⟨hne2, heq⟩
        · exact hne2 (heq.trans hdoi)
        · exact hne2 (heq.trans hpmid)
      rw [specDedupAux.eq_def]
      simp only [if_pos h]
      rw [ih kept, List.countP_cons]
      simp [hne]
    · rw [specDedupAux.eq_def]
      simp only [if_neg h]
      rw [List.countP_cons, List.countP_cons, ih (kept ++ [p])]

theorem specDedup_drop (pre post : List Paper) (q : Paper)
    (h : ∃ r ∈ specDedup pre, sharesId r q = true) :
    specDedup (pre ++ q :: post) = specDedup (pre ++ post) := by
  unfold specDedup
  rw [specDedupAux_append, specDedupAux_append]
  congr 1
  rw [specDedupAux.eq_def]
  simp only [List.nil_append]
  rw [if_pos]
  rcases h with ⟨r, hr, hshares⟩
  exact List.any_eq_true.mpr ⟨r, hr, hshares⟩

/-- **C7.**  The dedup step over the concatenation PubMed ++ general preprints
++ ITP preprints keeps a subsequence of the input (first-seen order), equals
the spec's rule "keep a document iff no previously kept document shares a
non-empty doi or a non-empty sourceId", drops a later document exactly when an
earlier kept one shares a non-empty identifier with it, and never drops a
document whose doi and pmid are both empty (so two id-less documents are
never deduplicated against each other). -/
theorem dedup_first_seen_spec (pubmed preprints itp : List Paper) :
    List.Sublist (FrontierDigest.dedup_papers (pubmed ++ preprints ++ itp))
      (pubmed ++ preprints ++ itp)
    ∧ FrontierDigest.dedup_papers (pubmed ++ preprints ++ itp) =
        specDedup (pubmed ++ preprints ++ itp)
    ∧ (∀ (pre post : List Paper) (q : Paper),
        pubmed ++ preprints ++ itp = pre ++ q :: post →
        (∃ r ∈ FrontierDigest.dedup_papers pre, sharesId r q = true) →
        FrontierDigest.dedup_papers (pubmed ++ preprints ++ itp) =
          FrontierDigest.dedup_papers (pre ++ post))
    ∧ (FrontierDigest.dedup_papers (pubmed ++ preprints ++ itp)).countP
        (fun p => decide (p.doi = "" ∧ p.pmid = "")) =
      (pubmed ++ preprints ++ itp).countP (fun p => decide (p.doi = "" ∧ p.pmid = "")) := by
  have hspec : ∀ l : List Paper, FrontierDigest.dedup_papers l = specDedup l := by
    intro l
    unfold FrontierDigest.dedup_papers specDedup
    apply dedupAux_eq_specAux
    · intro d; simp
    · intro m; simp
  refine ⟨dedupAux_sublist _ _ _, hspec _, ?_, ?_⟩
  · intro pre post q heq hex
    rw [heq, hspec, hspec]
    apply specDedup_drop
    rwa [hspec] at hex
  · rw [hspec]
    exact specDedupAux_countP_emptyIds _ []

/-- Witness for C7: the first-seen paper with `doi = "10.1/x"` survives; the
later preprint sharing that DOI is dropped, while two id-less papers are both
kept. -/
theorem dedup_first_seen_witness :
    FrontierDigest.dedup_papers
        ([{ title := "A", doi := "10.1/x", pmid := "1" }, { title := "B" }] ++
          [{ title := "C", doi := "10.1/x", pmid := "2" }] ++ [{ title := "D" }]) =
      FrontierDigest.dedup_papers
        ([{ title := "A", doi := "10.1/x", pmid := "1" }, { title := "B" }] ++ [{ title := "D" }])
    ∧ FrontierDigest.dedup_papers
        ([{ title := "A", doi := "10.1/x", pmid := "1" }, { title := "B" }] ++
          [{ title := "C", doi := "10.1/x", pmid := "2" }] ++ [{ title := "D" }]) =
      [{ title := "A", doi := "10.1/x", pmid := "1" }, { title := "B" }, { title := "D" }] := by
  have h := dedup_first_seen_spec
    [{ title := "A", doi := "10.1/x", pmid := "1" }, { title := "B" }]
    [{ title := "C", doi := "10.1/x", pmid := "2" }] [{ title := "D" }]
  refine ⟨?_, by decide⟩
  exact h.2.2.1 [{ title := "A", doi := "10.1/x", pmid := "1" }, { title := "B" }]
    [{ title := "D" }] { title := "C", doi := "10.1/x", pmid := "2" } (by decide) (by decide)
